import Mathlib

/-!
Verification of the nuix library (FiveM NUI bridge): locale deep-merge,
dot-notation resolver, Lua-style formatter, translator, global registry,
request dispatcher (mock path, real path with timeout), and the NUI
message listener.  Runtime JavaScript values are modelled by inductive
types; JS objects are modelled as association lists in insertion order
with unique keys (the semantics of `Object.entries` / property update).
-/

/-- A runtime locale value, per `LocaleRecord` from `types.ts`
(`{[key: string]: string | LocaleRecord}`) together with the `null`
value that `mergeLocales` defends against at runtime. -/
inductive LValue where
  | str (s : String)
  | null
  | obj (entries : List (String × LValue))
deriving Repr

/-- A JS object: an association list in property-insertion order. -/
abbrev LTable := List (String × LValue)

/-- Property read `table[key]`: `none` models `undefined`. -/
def lookupKey : LTable → String → Option LValue
  | [], _ => none
  | (k, v) :: rest, key => if k = key then some v else lookupKey rest key

/-- Property write `table[key] = value`: an existing key keeps its
position and gets the new value; a new key is appended. -/
def setKey : LTable → String → LValue → LTable
  | [], key, v => [(key, v)]
  | (k, w) :: rest, key, v =>
      if k = key then (key, v) :: rest else (k, w) :: setKey rest key v

mutual

/-- One iteration of the inner loop of `mergeLocales` (utils.ts:199-213):
given the accumulated `result` and one `[key, value]` entry of the current
record, store either the recursive merge (when both the incoming value and
the existing accumulated value are non-null objects) or the incoming value
wholesale. -/
def mergeStep (result : LTable) (key : String) (value : LValue) : LTable :=
  match lookupKey result key, value with
  | some (.obj existing), .obj incoming =>
      setKey result key (.obj (mergeRecord existing incoming))
  | _, _ => setKey result key value

/-- Folds every entry of `record` into `result`, in entry order: the body
of the outer loop of `mergeLocales`.  The recursive call
`mergeLocales(existing, value)` of the source copies `existing` into a
fresh result and then folds `value` in; on tables with unique keys that is
`mergeRecord existing value` (see `mergeRecord_nil_of_nodup`). -/
def mergeRecord (result : LTable) : LTable → LTable
  | [] => result
  | (key, value) :: rest => mergeRecord (mergeStep result key value) rest

end

/-- `mergeLocales(...records)` (utils.ts:195-217): fold every record
left-to-right into an initially empty result. -/
def mergeLocales (records : List LTable) : LTable :=
  records.foldl mergeRecord []

/-- A JS number value as an exact scaled decimal `mant / 10 ^ exp10`.
Every finite double is exactly representable as a finite decimal
(denominators `2^n` divide `10^n`), and this library performs no
arithmetic on numbers beyond `Math.floor`, so this model is exact for
the values the formatter can see; infinities are out of scope. -/
structure JSDec where
  mant : ℤ
  exp10 : ℕ
deriving Repr, DecidableEq

/-- A JS number: `NaN` or a finite decimal value. -/
inductive JSNum where
  | nan
  | num (d : JSDec)
deriving Repr, DecidableEq

/-- `FormatArg` from `types.ts`: `string | number | boolean | null | undefined`. -/
inductive FormatArg where
  | str (s : String)
  | num (n : JSNum)
  | bool (b : Bool)
  | null
  | undef
deriving Repr

/-- `Math.floor`: floor division of the mantissa by the scale. -/
def jsFloor (d : JSDec) : ℤ := d.mant.fdiv ((10 : ℤ) ^ d.exp10)

/-- Digits of the fractional remainder `fr / pow` (`0 ≤ fr < pow`,
`pow = 10 ^ k`), stopping at the last nonzero digit; `k` steps always
suffice.  Models the fraction digits of JS `String(number)`. -/
def fracDigitsAux : ℕ → ℕ → ℕ → String
  | _, _, 0 => ""
  | fr, pow, fuel + 1 =>
      if fr = 0 then ""
      else
        let fr10 := fr * 10
        toString (fr10 / pow) ++ fracDigitsAux (fr10 % pow) pow fuel

/-- JS `String(number)` on a finite decimal: sign, integer part, and the
fraction digits when nonzero. -/
def decToString (d : JSDec) : String :=
  let pow : ℕ := 10 ^ d.exp10
  let sign := if d.mant < 0 then "-" else ""
  let a := d.mant.natAbs
  let ip := a / pow
  let fr := a % pow
  sign ++ toString ip ++ (if fr = 0 then "" else "." ++ fracDigitsAux fr pow d.exp10)

/-- JS `String(number)` including `NaN`. -/
def jsNumToString : JSNum → String
  | .nan => "NaN"
  | .num d => decToString d

def digitsToNat (cs : List Char) : Nat :=
  cs.foldl (fun a c => a * 10 + (c.toNat - 48)) 0

/-- Parses an unsigned decimal literal (`Number()` on a trimmed string):
digits, optionally with a decimal point; hex and exponents are out of scope. -/
def parseUnsignedDec (cs : List Char) : Option JSDec :=
  let ip := cs.takeWhile Char.isDigit
  match cs.dropWhile Char.isDigit with
  | [] => if ip.isEmpty then none else some ⟨(digitsToNat ip : ℤ), 0⟩
  | '.' :: fs =>
      if fs.all Char.isDigit && (!ip.isEmpty || !fs.isEmpty) then
        some ⟨(digitsToNat ip * 10 ^ fs.length + digitsToNat fs : ℤ), fs.length⟩
      else none
  | _ => none

def decNeg (d : JSDec) : JSDec := ⟨-d.mant, d.exp10⟩

/-- JS `Number()` coercion on a `FormatArg`: `null → 0`, `undefined → NaN`,
booleans to `0`/`1`, strings parsed as decimal literals (empty string is `0`). -/
def jsToNumber : FormatArg → JSNum
  | .str s =>
      match (s.trim).toList with
      | [] => .num ⟨0, 0⟩
      | '-' :: cs => (parseUnsignedDec cs).elim .nan (fun d => .num (decNeg d))
      | '+' :: cs => (parseUnsignedDec cs).elim .nan .num
      | cs => (parseUnsignedDec cs).elim .nan .num
  | .num n => n
  | .bool b => .num (if b then ⟨1, 0⟩ else ⟨0, 0⟩)
  | .null => .num ⟨0, 0⟩
  | .undef => .nan

/-- JS `String()` coercion on a `FormatArg`. -/
def jsToString : FormatArg → String
  | .str s => s
  | .num n => jsNumToString n
  | .bool b => if b then "true" else "false"
  | .null => "null"
  | .undef => "undefined"

/-- The nullish coalescing `raw ?? ""` applied before `String()` in the
`%s` branch of `luaFormat`. -/
def coalesceEmpty : FormatArg → FormatArg
  | .null => .str ""
  | .undef => .str ""
  | v => v

/-- The scan performed by `template.replace(/%([sdfi%])/g, ...)` in
`luaFormat` (utils.ts:26-53): left-to-right, a `%` followed by one of
`s`, `d`, `i`, `f`, `%` is a token; any other character (including a `%`
followed by anything else) is copied through.  `i` is the argument cursor
(`argIndex`); an out-of-range read `args[argIndex]` yields `undefined`. -/
def luaFormatAux (args : List FormatArg) : Nat → List Char → String
  | _, [] => ""
  | i, c :: rest =>
      if c = '%' then
        match rest with
        | [] => "%"
        | c2 :: rest2 =>
            if c2 = '%' then "%" ++ luaFormatAux args i rest2
            else if c2 = 's' then
              jsToString (coalesceEmpty ((args[i]?).getD .undef))
                ++ luaFormatAux args (i + 1) rest2
            else if c2 = 'd' ∨ c2 = 'i' then
              toString (match jsToNumber ((args[i]?).getD .undef) with
                | .nan => (0 : ℤ)
                | .num d => jsFloor d) ++ luaFormatAux args (i + 1) rest2
            else if c2 = 'f' then
              decToString (match jsToNumber ((args[i]?).getD .undef) with
                | .nan => ⟨0, 0⟩
                | .num d => d) ++ luaFormatAux args (i + 1) rest2
            else "%" ++ luaFormatAux args i (c2 :: rest2)
      else c.toString ++ luaFormatAux args i rest

/-- `luaFormat(template, ...args)` (utils.ts:26-53): the argument cursor
starts at `0`. -/
def luaFormat (template : String) (args : List FormatArg) : String :=
  luaFormatAux args 0 template.toList

/-- Models `key.split(".")` on character lists (JS `String.prototype.split`
with a one-character separator: `"" → [""]`, no segment skipping). -/
def splitSegsAux : List Char → List Char → List String
  | [], acc => [String.mk acc.reverse]
  | '.' :: rest, acc => String.mk acc.reverse :: splitSegsAux rest []
  | c :: rest, acc => splitSegsAux rest (c :: acc)

def splitSegs (key : String) : List String := splitSegsAux key.toList []

/-- The loop of `resolveKey` (utils.ts:64-76): descend one segment at a
time, requiring a non-null object at every step; after the last segment
the value must be a string leaf. -/
def resolveSegsLoop : LValue → List String → Option String
  | current, [] => match current with | .str s => some s | _ => none
  | current, seg :: rest =>
      match current with
      | .obj entries =>
          match lookupKey entries seg with
          | none => none
          | some next => resolveSegsLoop next rest
      | _ => none

/-- `resolveKey(locales, key)` (utils.ts:64-76). -/
def resolveKey (locales : LTable) (key : String) : Option String :=
  resolveSegsLoop (.obj locales) (splitSegs key)

structure TranslatorOptions where
  locales : LTable

/-- `createTranslator(options)` (utils.ts:98-110): the returned closure. -/
def createTranslator (options : TranslatorOptions) :
    String → String → List FormatArg → String :=
  fun key fallback args =>
    match resolveKey options.locales key with
    | none => fallback
    | some template => if args.length > 0 then luaFormat template args else template

/-- `registerLocales` (utils.ts:133-135), state-passing: the new global
table is exactly the argument; the previous table is discarded. -/
def registerLocales (locales : LTable) (_current : LTable) : LTable := locales

/-- `extendLocales(...records)` (utils.ts:149-151), state-passing:
`_locales = mergeLocales(_locales, ...records)`. -/
def extendLocales (records : List LTable) (current : LTable) : LTable :=
  mergeLocales (current :: records)

/-- Initial value of the module-level `_locales` (utils.ts:114). -/
def initialLocales : LTable := []

/-- The global translator `_U` (utils.ts:172-176), reading the current
global table passed explicitly. -/
def _U (current : LTable) (key fallback : String) (args : List FormatArg) : String :=
  match resolveKey current key with
  | none => fallback
  | some template => if args.length > 0 then luaFormat template args else template

/-- Generic JS property lookup on an association-list object. -/
def lookupAssoc {α : Type _} : List (String × α) → String → Option α
  | [], _ => none
  | (k, v) :: rest, key => if k = key then some v else lookupAssoc rest key

/-- A `mockData` entry (`types.ts`): a stored response value, a response
function, or an explicitly-registered `undefined` value.  JS
distinguishes a key present with value `undefined` from an absent key;
`event in mockData` checks presence. -/
inductive MockEntry (δ ρ : Type) where
  | undef
  | fn (f : δ → ρ)
  | val (v : ρ)

/-- What one `fetchNui` invocation decides to do before any transport
activity (client.ts:67-88): resolve from the mock table (value or thrown
configuration error), or issue a real fetch to the constructed URL.  A
real transport call occurs only in the `realFetch` case. -/
inductive FetchPlan (δ ρ : Type) where
  | mockOk (r : ρ)
  | mockErr (msg : String)
  | realFetch (url : String) (data : δ)

/-- `getResourceName()` (client.ts:9-14): the injected
`window.GetParentResourceName()` when present, else `"nui-frame-app"`. -/
def getResourceName (injected : Option String) : String :=
  match injected with
  | some name => name
  | none => "nui-frame-app"

/-- The mock-vs-real decision of `fetchNui` (client.ts:60-95): if a mock
table was configured and holds a key for `event`, the result comes from
that entry (an entry that is a function is invoked synchronously with
`data`; an explicitly-`undefined` entry throws); otherwise the call
proceeds to the real transport at `https://<resource>/<event>`. -/
def fetchNuiPlan {δ ρ : Type} (injected : Option String)
    (mockData : Option (List (String × MockEntry δ ρ)))
    (event : String) (data : δ) : FetchPlan δ ρ :=
  match mockData with
  | some md =>
      match lookupAssoc md event with
      | some .undef => .mockErr ("[NUIX] Mock data for \"" ++ event ++ "\" is undefined")
      | some (.fn f) => .mockOk (f data)
      | some (.val v) => .mockOk v
      | none => .realFetch ("https://" ++ getResourceName injected ++ "/" ++ event) data
  | none => .realFetch ("https://" ++ getResourceName injected ++ "/" ++ event) data

/-- Behavior of the browser `fetch` for one call, as seen at settlement:
a response with a status and body arriving `elapsed` ms after dispatch, a
network-level failure, or a call that never settles. -/
inductive FetchOutcome (ρ : Type) where
  | responds (status : ℕ) (body : ρ) (elapsed : ℕ)
  | networkError (msg : String)
  | hangs

/-- Outcome of one real-path dispatch (client.ts:97-123).  The error
kinds are distinct constructors carrying the data their messages name. -/
inductive RealResult (ρ : Type) where
  | ok (v : ρ)
  | httpError (event : String) (status : ℕ)
  | timeoutError (event : String) (ms : ℕ)
  | transportError (msg : String)
  | neverSettles

/-- Resource bookkeeping of one real-path dispatch: whether the
`AbortController` was constructed, whether `setTimeout` was scheduled,
whether `controller.abort()` fired, and whether a scheduled timer is
still pending after the dispatch settled (the `finally` block clears
it on every exit path). -/
structure RealTrace where
  controllerCreated : Bool
  timerScheduled : Bool
  abortSignaled : Bool
  timerPendingAtEnd : Bool
deriving Repr, DecidableEq

/-- JS truthiness of `options?.timeout`: absent and `0` are falsy. -/
def timeoutTruthy : Option ℕ → Bool
  | some t => t != 0
  | none => false

/-- `Response.ok`: HTTP status in the inclusive range 200-299. -/
def responseOk (status : ℕ) : Bool := decide (200 ≤ status) && decide (status ≤ 299)

/-- The real path of `fetchNui` (client.ts:90-123): the controller and
timer exist only when `options?.timeout` is truthy; when armed, the timer
aborts the fetch at `timeout` ms, so a response that has not arrived
strictly before then (or never arrives) is preempted and surfaces as the
timeout error; a settled response with a non-ok status throws the HTTP
error; the `finally` clause clears the timer on every settled path. -/
def fetchNuiReal {ρ : Type} (event : String) (timeout : Option ℕ)
    (env : FetchOutcome ρ) : RealResult ρ × RealTrace :=
  if timeoutTruthy timeout then
    match env with
    | .hangs => (.timeoutError event (timeout.getD 0), ⟨true, true, true, false⟩)
    | .responds status body elapsed =>
        if timeout.getD 0 ≤ elapsed then
          (.timeoutError event (timeout.getD 0), ⟨true, true, true, false⟩)
        else if !responseOk status then
          (.httpError event status, ⟨true, true, false, false⟩)
        else (.ok body, ⟨true, true, false, false⟩)
    | .networkError msg => (.transportError msg, ⟨true, true, false, false⟩)
  else
    match env with
    | .hangs => (.neverSettles, ⟨false, false, false, false⟩)
    | .responds status body _ =>
        if !responseOk status then
          (.httpError event status, ⟨false, false, false, false⟩)
        else (.ok body, ⟨false, false, false, false⟩)
    | .networkError msg => (.transportError msg, ⟨false, false, false, false⟩)

/-- The exact error messages thrown on the real path (client.ts:106,118). -/
def realErrorMessage {ρ : Type} : RealResult ρ → Option String
  | .httpError event status =>
      some ("[NUIX] fetchNui(\"" ++ event ++ "\") failed with HTTP " ++ toString status)
  | .timeoutError event t =>
      some ("[NUIX] fetchNui(\"" ++ event ++ "\") timed out after " ++ toString t ++ "ms")
  | _ => none

/-- The two subscription modes of `onNuiMessage`: filtered by an action
name, or catch-all. -/
inductive SubKind where
  | filtered (action : String)
  | catchAll
deriving Repr, DecidableEq

/-- One active listener registration on the message channel. -/
structure NuiSub where
  id : ℕ
  kind : SubKind
deriving Repr, DecidableEq

/-- One inbound raw notification.  `structured` is false when the payload
fails `!payload || typeof payload !== "object"` (null or a primitive);
`action = ""` models an absent, empty, or otherwise falsy `action` field
(all are rejected by `if (!payload.action) return`). -/
structure RawMsg (δ : Type) where
  structured : Bool
  action : String
  data : δ

/-- A handler invocation produced by one notification. -/
inductive Invocation (δ : Type) where
  | onAction (subId : ℕ) (data : δ)
  | onAny (subId : ℕ) (action : String) (data : δ)

/-- The listener body of `onNuiMessage` (validity filter, then
per-mode dispatch): what one registration does with one notification. -/
def deliverTo {δ : Type} (s : NuiSub) (m : RawMsg δ) : Option (Invocation δ) :=
  if !m.structured then none
  else if m.action = "" then none
  else
    match s.kind with
    | .filtered a => if m.action = a then some (.onAction s.id m.data) else none
    | .catchAll => some (.onAny s.id m.action m.data)

/-- Delivery of one inbound message to every registration on the channel,
in registration order. -/
def dispatchMsg {δ : Type} (bus : List NuiSub) (m : RawMsg δ) : List (Invocation δ) :=
  bus.filterMap (fun s => deliverTo s m)

/-- The cancellation handle: `removeEventListener` detaches exactly the
registration it was created for. -/
def unsubscribe (bus : List NuiSub) (i : ℕ) : List NuiSub :=
  bus.filter (fun s => s.id ≠ i)

/-- All handler invocations over a sequence of inbound messages. -/
def runBus {δ : Type} (bus : List NuiSub) (msgs : List (RawMsg δ)) : List (Invocation δ) :=
  msgs.flatMap (dispatchMsg bus)

/-- A heap value: a string leaf, `null`, or a reference to an object on
the heap.  This second, heap-passing model of `mergeLocales` makes object
identity and mutation explicit so that the source's no-mutation guarantee
is a provable statement rather than a vacuity of a pure embedding. -/
inductive HVal where
  | str (s : String)
  | null
  | ref (a : ℕ)
deriving Repr, DecidableEq

/-- An object on the heap: its own properties in insertion order. -/
abbrev HObj := List (String × HVal)

/-- The JS heap: object store plus the next fresh address. -/
structure Heap where
  objs : List (ℕ × HObj)
  next : ℕ
deriving Repr, DecidableEq

def hget (h : List (ℕ × HObj)) (a : ℕ) : Option HObj :=
  match h with
  | [] => none
  | (a', o) :: rest => if a' = a then some o else hget rest a

def hset (h : List (ℕ × HObj)) (a : ℕ) (o : HObj) : List (ℕ × HObj) :=
  match h with
  | [] => [(a, o)]
  | (a', o') :: rest => if a' = a then (a, o) :: rest else (a', o') :: hset rest a o

/-- `{}` — allocate a fresh empty-or-given object. -/
def halloc (σ : Heap) (o : HObj) : Heap × ℕ :=
  (⟨hset σ.objs σ.next o, σ.next + 1⟩, σ.next)

def lookupH (o : HObj) (k : String) : Option HVal :=
  match o with
  | [] => none
  | (k', v) :: rest => if k' = k then some v else lookupH rest k

def setH (o : HObj) (k : String) (v : HVal) : HObj :=
  match o with
  | [] => [(k, v)]
  | (k', w) :: rest => if k' = k then (k, v) :: rest else (k', w) :: setH rest k v

mutual

/-- Heap-passing `mergeLocales(...records)` (utils.ts:195-217): allocate
a fresh `result` object, then fold every record into it.  `fuel` bounds
the recursion depth (the heap type does not rule out reference cycles);
`none` means fuel ran out or a record address was dangling. -/
def mergeLocalesH : ℕ → Heap → List ℕ → Option (Heap × ℕ)
  | 0, _, _ => none
  | fuel + 1, σ, records =>
      match halloc σ [] with
      | (σ₁, r) =>
          match mergeRecordsH fuel σ₁ r records with
          | none => none
          | some σ₂ => some (σ₂, r)
termination_by structural fuel _ _ => fuel

/-- The outer loop: `for (const record of records)`. -/
def mergeRecordsH : ℕ → Heap → ℕ → List ℕ → Option Heap
  | 0, _, _, _ => none
  | _ + 1, σ, _, [] => some σ
  | fuel + 1, σ, r, rcd :: rest =>
      match hget σ.objs rcd with
      | none => none
      | some entries =>
          match mergeEntriesH fuel σ r entries with
          | none => none
          | some σ' => mergeRecordsH fuel σ' r rest
termination_by structural fuel _ _ _ => fuel

/-- The inner loop: `for (const [key, value] of Object.entries(record))`.
When the incoming value and the value already stored on the result are
both object references, store a reference to the recursive merge
`mergeLocales(existing, value)`; otherwise store the incoming value
wholesale.  Only the result object `r` is ever written. -/
def mergeEntriesH : ℕ → Heap → ℕ → HObj → Option Heap
  | 0, _, _, _ => none
  | _ + 1, σ, _, [] => some σ
  | fuel + 1, σ, r, (key, value) :: es =>
      match hget σ.objs r with
      | none => none
      | some resObj =>
          match lookupH resObj key, value with
          | some (.ref ea), .ref va =>
              match mergeLocalesH fuel σ [ea, va] with
              | none => none
              | some (σ₂, m) =>
                  match hget σ₂.objs r with
                  | none => none
                  | some resObj₂ =>
                      mergeEntriesH fuel
                        ⟨hset σ₂.objs r (setH resObj₂ key (.ref m)), σ₂.next⟩ r es
          | _, _ =>
              mergeEntriesH fuel ⟨hset σ.objs r (setH resObj key value), σ.next⟩ r es
termination_by structural fuel _ _ _ => fuel

end

def uiTable : LTable := [("ui", LValue.obj [("greeting", LValue.str "Hello %s!")])]

def mockTableW : List (String × MockEntry LValue LValue) :=
  [("e", .val .null), ("f", .fn (fun d => d)), ("g", .undef)]

/-- The subscription a handler invocation belongs to. -/
def invSubId {δ : Type} : Invocation δ → ℕ
  | .onAction j _ => j
  | .onAny j _ _ => j

/-- Selects the invocations of subscription `i` from a delivery log. -/
def invFor {δ : Type} (i : ℕ) (inv : Invocation δ) : Bool := invSubId inv == i

def busW : List NuiSub := [⟨0, .filtered "showMenu"⟩, ⟨1, .filtered "hideMenu"⟩]

def msgShow : RawMsg ℕ := ⟨true, "showMenu", 5⟩

def heapW : Heap :=
  ⟨[(0, [("x", HVal.str "1")]),
    (1, [("a", HVal.ref 0)]),
    (2, [("y", HVal.str "2")]),
    (3, [("a", HVal.ref 2)])], 4⟩

def heapW' : Heap :=
  ⟨[(0, [("x", HVal.str "1")]),
    (1, [("a", HVal.ref 0)]),
    (2, [("y", HVal.str "2")]),
    (3, [("a", HVal.ref 2)]),
    (4, [("a", HVal.ref 5)]),
    (5, [("x", HVal.str "1"), ("y", HVal.str "2")])], 6⟩

theorem lookupKey_setKey_self (t : LTable) (k : String) (v : LValue) :
    lookupKey (setKey t k v) k = some v := by
  induction t with
  | nil => simp [setKey, lookupKey]
  | cons hd tl ih =>
      obtain ⟨k', w⟩ := hd
      by_cases h : k' = k
      · simp [setKey, lookupKey, h]
      · simp [setKey, lookupKey, h, ih]

theorem setKey_of_lookup_none (t : LTable) (k : String) (v : LValue)
    (h : lookupKey t k = none) : setKey t k v = t ++ [(k, v)] := by
  induction t with
  | nil => simp [setKey]
  | cons hd tl ih =>
      obtain ⟨k', w⟩ := hd
      by_cases hk : k' = k
      · simp [lookupKey, hk] at h
      · simp [lookupKey, hk] at h
        simp [setKey, hk, ih h]

theorem lookupKey_append_of_none (t u : LTable) (k : String)
    (h : lookupKey t k = none) : lookupKey (t ++ u) k = lookupKey u k := by
  induction t with
  | nil => simp
  | cons hd tl ih =>
      obtain ⟨k', w⟩ := hd
      by_cases hk : k' = k
      · simp [lookupKey, hk] at h
      · simp [lookupKey, hk] at h ⊢
        exact ih h

theorem mergeRecord_append_of_disjoint (rec : LTable) :
    ∀ result : LTable,
      (∀ k v, (k, v) ∈ rec → lookupKey result k = none) →
      (rec.map Prod.fst).Nodup →
      mergeRecord result rec = result ++ rec := by
  induction rec with
  | nil => intro result _ _; simp [mergeRecord]
  | cons hd tl ih =>
      intro result hdisj hnodup
      obtain ⟨k, v⟩ := hd
      have hk : lookupKey result k = none := hdisj k v (by simp)
      have hstep : mergeStep result k v = result ++ [(k, v)] := by
        unfold mergeStep
        rw [hk]
        exact setKey_of_lookup_none result k v hk
      have hmap : (k :: tl.map Prod.fst).Nodup := by simpa using hnodup
      have hnodup' : (tl.map Prod.fst).Nodup := hmap.of_cons
      have hknotin : k ∉ tl.map Prod.fst := (List.nodup_cons.mp hmap).1
      have hdisj' : ∀ k' v', (k', v') ∈ tl → lookupKey (result ++ [(k, v)]) k' = none := by
        intro k' v' hmem
        have hne : k' ≠ k := by
          intro hEq
          exact hknotin (by subst hEq; exact List.mem_map.mpr ⟨(k', v'), hmem, rfl⟩)
        have h1 : lookupKey result k' = none := hdisj k' v' (List.mem_cons_of_mem _ hmem)
        rw [lookupKey_append_of_none result _ k' h1]
        simp [lookupKey, hne.symm]
      calc mergeRecord result ((k, v) :: tl)
          = mergeRecord (result ++ [(k, v)]) tl := by rw [mergeRecord, hstep]
        _ = (result ++ [(k, v)]) ++ tl := ih (result ++ [(k, v)]) hdisj' hnodup'
        _ = result ++ ((k, v) :: tl) := by simp

/-- On a table with unique keys (every JS object), folding it into an
empty result is the identity: this is why `mergeRecord existing incoming`
faithfully embeds the source's recursive call `mergeLocales(existing, value)`. -/
theorem mergeRecord_nil_of_nodup (rec : LTable)
    (h : (rec.map Prod.fst).Nodup) : mergeRecord [] rec = rec := by
  simpa using mergeRecord_append_of_disjoint rec []
    (fun _ _ _ => by simp [lookupKey]) h

example : mergeLocales [[("a", .obj [("x", .str "1")])], [("a", .obj [("y", .str "2")])]]
    = [("a", .obj [("x", .str "1"), ("y", .str "2")])] := by
  simp [mergeLocales, mergeRecord, mergeStep, lookupKey, setKey]

example : mergeLocales [[("a", .obj [("x", .str "1")])], [("a", .str "scalar")]]
    = [("a", .str "scalar")] := by
  simp [mergeLocales, mergeRecord, mergeStep, lookupKey, setKey]

example : mergeLocales [] = [] := by
  simp [mergeLocales]

example : luaFormat "%s" [.null] = "" := by decide

example : luaFormat "%s" [.undef] = "" := by decide

example : luaFormat "%d" [.num .nan] = "0" := by decide

example : luaFormat "%d" [.num (.num ⟨39, 1⟩)] = "3" := by decide

example : luaFormat "%f" [.num (.num ⟨39, 1⟩)] = "3.9" := by decide

example : luaFormat "100%%" [] = "100%" := by decide

example : luaFormat "Hello %s, you are level %d" [.str "Laot", .num (.num ⟨42, 0⟩)]
    = "Hello Laot, you are level 42" := by decide

example : resolveKey [("a", .obj [("b", .str "X")])] "a.b" = some "X" := by decide

example : resolveKey [("a", .obj [("b", .str "X")])] "a" = none := by decide

example : resolveKey [("a", .obj [("b", .str "X")])] "a.c" = none := by decide

example : resolveKey [("a", .obj [("b", .str "X")])] "z" = none := by decide

theorem hget_hset_ne (h : List (ℕ × HObj)) (a b : ℕ) (o : HObj)
    (hne : b ≠ a) : hget (hset h a o) b = hget h b := by
  induction h with
  | nil => simp [hset, hget, Ne.symm hne]
  | cons hd tl ih =>
      obtain ⟨a', o'⟩ := hd
      by_cases hcase : a' = a
      · subst hcase
        simp [hset, hget, hne, Ne.symm hne]
      · simp [hset, hget, hcase, ih]

/-- Combined frame property of the three mutually recursive heap-merge
functions, by induction on fuel: no pre-existing address (below `σ.next`;
for the two loop functions, also other than the result object `r` they
are filling) is ever written, and `next` never decreases.  The top-level
entry additionally returns the freshly allocated result address. -/
theorem mergeH_frame (fuel : ℕ) :
    (∀ σ records σ' r, mergeLocalesH fuel σ records = some (σ', r) →
      σ.next ≤ σ'.next ∧ r = σ.next ∧
      ∀ a, a < σ.next → hget σ'.objs a = hget σ.objs a) ∧
    (∀ σ r records σ', mergeRecordsH fuel σ r records = some σ' →
      σ.next ≤ σ'.next ∧
      ∀ a, a < σ.next → a ≠ r → hget σ'.objs a = hget σ.objs a) ∧
    (∀ σ r es σ', mergeEntriesH fuel σ r es = some σ' →
      σ.next ≤ σ'.next ∧
      ∀ a, a < σ.next → a ≠ r → hget σ'.objs a = hget σ.objs a) := by
  induction fuel with
  | zero =>
      refine ⟨?_, ?_, ?_⟩
      · intro σ records σ' r h; simp [mergeLocalesH] at h
      · intro σ r records σ' h; simp [mergeRecordsH] at h
      · intro σ r es σ' h; simp [mergeEntriesH] at h
  | succ fuel ih =>
      obtain ⟨ih1, ih2, ih3⟩ := ih
      refine ⟨?_, ?_, ?_⟩
      · intro σ records σ' r h
        simp only [mergeLocalesH, halloc] at h
        cases hrec : mergeRecordsH fuel ⟨hset σ.objs σ.next [], σ.next + 1⟩ σ.next records with
        | none => simp [hrec] at h
        | some σ₂ =>
            simp only [hrec, Option.some.injEq, Prod.mk.injEq] at h
            obtain ⟨h1, h2⟩ := h
            subst h1
            subst h2
            obtain ⟨hle, hpres⟩ := ih2 _ _ _ _ hrec
            refine ⟨?_, rfl, ?_⟩
            · exact le_trans (Nat.le_succ σ.next) (by simpa using hle)
            · intro a ha
              have hne : a ≠ σ.next := Nat.ne_of_lt ha
              have h3 := hpres a (by simpa using lt_trans ha (Nat.lt_succ_self _)) hne
              rw [h3]
              exact hget_hset_ne _ _ _ _ hne
      · intro σ r records σ' h
        cases records with
        | nil =>
            simp only [mergeRecordsH, Option.some.injEq] at h
            subst h
            exact ⟨le_refl _, fun a _ _ => rfl⟩
        | cons rcd rest =>
            simp only [mergeRecordsH] at h
            cases hg : hget σ.objs rcd with
            | none => simp [hg] at h
            | some entries =>
                simp only [hg] at h
                cases he : mergeEntriesH fuel σ r entries with
                | none => simp [he] at h
                | some σ₁ =>
                    simp only [he] at h
                    obtain ⟨hle1, hp1⟩ := ih3 _ _ _ _ he
                    obtain ⟨hle2, hp2⟩ := ih2 _ _ _ _ h
                    refine ⟨le_trans hle1 hle2, ?_⟩
                    intro a ha hne
                    rw [hp2 a (lt_of_lt_of_le ha hle1) hne, hp1 a ha hne]
      · intro σ r es σ' h
        cases es with
        | nil =>
            simp only [mergeEntriesH, Option.some.injEq] at h
            subst h
            exact ⟨le_refl _, fun a _ _ => rfl⟩
        | cons hd es' =>
            obtain ⟨key, value⟩ := hd
            simp only [mergeEntriesH] at h
            cases hg : hget σ.objs r with
            | none => simp [hg] at h
            | some resObj =>
                simp only [hg] at h
                cases hlv : lookupH resObj key with
                | none =>
                    simp only [hlv] at h
                    obtain ⟨hle, hp⟩ := ih3 _ _ _ _ h
                    refine ⟨by simpa using hle, ?_⟩
                    intro a ha hne
                    rw [hp a (by simpa using ha) hne]
                    exact hget_hset_ne _ _ _ _ hne
                | some hv =>
                    simp only [hlv] at h
                    cases hv with
                    | str s =>
                        obtain ⟨hle, hp⟩ := ih3 _ _ _ _ h
                        refine ⟨by simpa using hle, ?_⟩
                        intro a ha hne
                        rw [hp a (by simpa using ha) hne]
                        exact hget_hset_ne _ _ _ _ hne
                    | null =>
                        obtain ⟨hle, hp⟩ := ih3 _ _ _ _ h
                        refine ⟨by simpa using hle, ?_⟩
                        intro a ha hne
                        rw [hp a (by simpa using ha) hne]
                        exact hget_hset_ne _ _ _ _ hne
                    | ref ea =>
                        cases value with
                        | str s =>
                            obtain ⟨hle, hp⟩ := ih3 _ _ _ _ h
                            refine ⟨by simpa using hle, ?_⟩
                            intro a ha hne
                            rw [hp a (by simpa using ha) hne]
                            exact hget_hset_ne _ _ _ _ hne
                        | null =>
                            obtain ⟨hle, hp⟩ := ih3 _ _ _ _ h
                            refine ⟨by simpa using hle, ?_⟩
                            intro a ha hne
                            rw [hp a (by simpa using ha) hne]
                            exact hget_hset_ne _ _ _ _ hne
                        | ref va =>
                            cases hm : mergeLocalesH fuel σ [ea, va] with
                            | none => simp [hm] at h
                            | some p =>
                                obtain ⟨σ₂, m⟩ := p
                                simp only [hm] at h
                                cases hg2 : hget σ₂.objs r with
                                | none => simp [hg2] at h
                                | some resObj₂ =>
                                    simp only [hg2] at h
                                    obtain ⟨hle1, _, hp1⟩ := ih1 _ _ _ _ hm
                                    obtain ⟨hle2, hp2⟩ := ih3 _ _ _ _ h
                                    refine ⟨le_trans hle1 (by simpa using hle2), ?_⟩
                                    intro a ha hne
                                    rw [hp2 a (by simpa using lt_of_lt_of_le ha hle1) hne]
                                    have h4 : hget (hset σ₂.objs r (setH resObj₂ key (.ref m))) a
                                        = hget σ₂.objs a := hget_hset_ne _ _ _ _ hne
                                    rw [h4]
                                    exact hp1 a ha

/-- C1: `mergeLocales` returns the fold of the records, left to right,
into an initially empty result; at each key the incoming value replaces
the accumulated value wholesale unless both are non-null objects, in
which case the recursive merge (existing as base, incoming as override)
is stored; merging zero tables yields the empty table; and a `null`
value at a key overwrites any nested structure accumulated there. -/
theorem C1_mergeLocales_fold :
    mergeLocales [] = [] ∧
    (∀ records : List LTable, mergeLocales records = records.foldl mergeRecord []) ∧
    (∀ result rest : LTable, ∀ k : String, ∀ v : LValue,
      mergeRecord result ((k, v) :: rest) = mergeRecord (mergeStep result k v) rest) ∧
    (∀ result : LTable, ∀ k : String, ∀ ex inc : List (String × LValue),
      lookupKey result k = some (.obj ex) →
      mergeStep result k (.obj inc) = setKey result k (.obj (mergeRecord ex inc))) ∧
    (∀ result : LTable, ∀ k : String, ∀ v : LValue,
      lookupKey result k = none → mergeStep result k v = setKey result k v) ∧
    (∀ result : LTable, ∀ k s : String, ∀ v : LValue,
      lookupKey result k = some (.str s) → mergeStep result k v = setKey result k v) ∧
    (∀ result : LTable, ∀ k : String, ∀ v : LValue,
      lookupKey result k = some .null → mergeStep result k v = setKey result k v) ∧
    (∀ result : LTable, ∀ k s : String,
      mergeStep result k (.str s) = setKey result k (.str s)) ∧
    (∀ result : LTable, ∀ k : String,
      mergeStep result k .null = setKey result k .null) ∧
    (∀ result : LTable, ∀ k : String,
      lookupKey (mergeStep result k .null) k = some .null) := by
  have hoo : ∀ (result : LTable) (k : String) (ex inc : List (String × LValue)),
      lookupKey result k = some (.obj ex) →
      mergeStep result k (.obj inc) = setKey result k (.obj (mergeRecord ex inc)) := by
    intro result k ex inc h
    rw [mergeStep.eq_def, h]
  have hnone : ∀ (result : LTable) (k : String) (v : LValue),
      lookupKey result k = none → mergeStep result k v = setKey result k v := by
    intro result k v h
    cases v <;> rw [mergeStep.eq_def, h]
  have hstrex : ∀ (result : LTable) (k s : String) (v : LValue),
      lookupKey result k = some (.str s) → mergeStep result k v = setKey result k v := by
    intro result k s v h
    cases v <;> rw [mergeStep.eq_def, h]
  have hnullex : ∀ (result : LTable) (k : String) (v : LValue),
      lookupKey result k = some .null → mergeStep result k v = setKey result k v := by
    intro result k v h
    cases v <;> rw [mergeStep.eq_def, h]
  have hobjscalar : ∀ (result : LTable) (k s : String) (ex : List (String × LValue)),
      lookupKey result k = some (.obj ex) →
      mergeStep result k (.str s) = setKey result k (.str s) := by
    intro result k s ex h
    rw [mergeStep.eq_def, h]
  have hobjnull : ∀ (result : LTable) (k : String) (ex : List (String × LValue)),
      lookupKey result k = some (.obj ex) →
      mergeStep result k .null = setKey result k .null := by
    intro result k ex h
    rw [mergeStep.eq_def, h]
  have hscalar : ∀ (result : LTable) (k s : String),
      mergeStep result k (.str s) = setKey result k (.str s) := by
    intro result k s
    cases hl : lookupKey result k with
    | none => exact hnone result k _ hl
    | some v =>
        cases v with
        | str t => exact hstrex result k t _ hl
        | null => exact hnullex result k _ hl
        | obj ex => exact hobjscalar result k s ex hl
  have hnull : ∀ (result : LTable) (k : String),
      mergeStep result k .null = setKey result k .null := by
    intro result k
    cases hl : lookupKey result k with
    | none => exact hnone result k _ hl
    | some v =>
        cases v with
        | str t => exact hstrex result k t _ hl
        | null => exact hnullex result k _ hl
        | obj ex => exact hobjnull result k ex hl
  refine ⟨rfl, fun _ => rfl, ?_, hoo, hnone, hstrex, hnullex, hscalar, hnull, ?_⟩
  · intro result rest k v
    rw [mergeRecord]
  · intro result k
    rw [hnull]
    exact lookupKey_setKey_self result k .null

theorem C1_mergeLocales_fold_witness :
    mergeStep [("a", LValue.obj [("x", LValue.str "1")])] "a" (LValue.obj [("y", LValue.str "2")])
      = setKey [("a", LValue.obj [("x", LValue.str "1")])] "a"
          (LValue.obj (mergeRecord [("x", LValue.str "1")] [("y", LValue.str "2")]))
    ∧ mergeStep [("a", LValue.obj [("x", LValue.str "1")])] "a" (LValue.str "scalar")
      = setKey [("a", LValue.obj [("x", LValue.str "1")])] "a" (LValue.str "scalar")
    ∧ lookupKey (mergeStep [("a", LValue.obj [("x", LValue.str "1")])] "a" LValue.null) "a"
      = some LValue.null :=
  ⟨C1_mergeLocales_fold.2.2.2.1 [("a", LValue.obj [("x", LValue.str "1")])] "a"
      [("x", LValue.str "1")] [("y", LValue.str "2")] rfl,
   C1_mergeLocales_fold.2.2.2.2.2.2.2.1 [("a", LValue.obj [("x", LValue.str "1")])] "a" "scalar",
   C1_mergeLocales_fold.2.2.2.2.2.2.2.2.2 [("a", LValue.obj [("x", LValue.str "1")])] "a"⟩

/-- C2: the global registry: `registerLocales` replaces the whole table
with its argument (no merge); `extendLocales` replaces the table with the
merge of the current table and the new records; `_U` reads the table it
is given at call time — so after `register A; extend B` the translator
resolves against `merge [A, B]`, and a later `register C` fully discards
the extension. -/
theorem C2_global_registry :
    ∀ (A B C s : LTable) (key fallback : String) (args : List FormatArg),
      registerLocales A s = A ∧
      extendLocales [B] (registerLocales A s) = mergeLocales [A, B] ∧
      _U (extendLocales [B] (registerLocales A s)) key fallback args
        = _U (mergeLocales [A, B]) key fallback args ∧
      registerLocales C (extendLocales [B] (registerLocales A s)) = C :=
  fun _ _ _ _ _ _ _ => ⟨rfl, rfl, rfl, rfl⟩

/-- C5: the translator (both the `createTranslator` closure and the
global `_U`) returns the fallback verbatim when key resolution fails,
returns the resolved template unchanged when zero args were supplied,
and returns the formatter applied to the template and args when at least
one arg was supplied. -/
theorem C5_translator_behavior :
    ∀ (locales : LTable) (key fallback : String) (args : List FormatArg),
      (resolveKey locales key = none →
        createTranslator ⟨locales⟩ key fallback args = fallback ∧
        _U locales key fallback args = fallback) ∧
      (∀ template, resolveKey locales key = some template → args = [] →
        createTranslator ⟨locales⟩ key fallback args = template ∧
        _U locales key fallback args = template) ∧
      (∀ template, resolveKey locales key = some template → args ≠ [] →
        createTranslator ⟨locales⟩ key fallback args = luaFormat template args ∧
        _U locales key fallback args = luaFormat template args) := by
  intro locales key fallback args
  refine ⟨?_, ?_, ?_⟩
  · intro h
    constructor <;> simp [createTranslator, _U, h]
  · intro t h harg
    subst harg
    constructor <;> simp [createTranslator, _U, h]
  · intro t h harg
    have hlen : 0 < args.length := List.length_pos.mpr harg
    constructor <;> simp [createTranslator, _U, h, hlen]

theorem C5_translator_behavior_witness :
    createTranslator ⟨uiTable⟩ "ui.greeting" "Hi" [FormatArg.str "Laot"]
      = luaFormat "Hello %s!" [FormatArg.str "Laot"]
    ∧ _U uiTable "missing" "Fallback" [] = "Fallback"
    ∧ createTranslator ⟨uiTable⟩ "ui.greeting" "Hi" [] = "Hello %s!" :=
  ⟨((C5_translator_behavior uiTable "ui.greeting" "Hi" [FormatArg.str "Laot"]).2.2
      "Hello %s!" rfl (by simp)).1,
   ((C5_translator_behavior uiTable "missing" "Fallback" []).1 rfl).2,
   ((C5_translator_behavior uiTable "ui.greeting" "Hi" []).2.1 "Hello %s!" rfl rfl).1⟩

/-- C7: the resolver splits the key on `.` into ordered segments and
descends from the root; a non-object (string or null) at an intermediate
step, or an absent segment, is not-found immediately; after consuming
all segments only a string leaf is returned — an object or null at the
final position is also not-found. -/
theorem C7_resolveKey_descent :
    (∀ (locales : LTable) (key : String),
      resolveKey locales key = resolveSegsLoop (.obj locales) (splitSegs key)) ∧
    (∀ (s seg : String) (rest : List String),
      resolveSegsLoop (.str s) (seg :: rest) = none) ∧
    (∀ (seg : String) (rest : List String),
      resolveSegsLoop .null (seg :: rest) = none) ∧
    (∀ (entries : List (String × LValue)) (seg : String) (rest : List String),
      lookupKey entries seg = none →
      resolveSegsLoop (.obj entries) (seg :: rest) = none) ∧
    (∀ (entries : List (String × LValue)) (seg : String) (rest : List String)
        (next : LValue),
      lookupKey entries seg = some next →
      resolveSegsLoop (.obj entries) (seg :: rest) = resolveSegsLoop next rest) ∧
    (∀ s : String, resolveSegsLoop (.str s) [] = some s) ∧
    (∀ entries : List (String × LValue), resolveSegsLoop (.obj entries) [] = none) ∧
    (resolveSegsLoop .null [] = none) := by
  refine ⟨fun _ _ => rfl, fun _ _ _ => rfl, fun _ _ => rfl, ?_, ?_,
    fun _ => rfl, fun _ => rfl, rfl⟩
  · intro entries seg rest h
    simp [resolveSegsLoop, h]
  · intro entries seg rest next h
    simp [resolveSegsLoop, h]

theorem C7_resolveKey_descent_witness :
    resolveSegsLoop (.obj [("b", LValue.str "X")]) ["c"] = none ∧
    resolveSegsLoop (.obj [("b", LValue.str "X")]) ["b"]
      = resolveSegsLoop (LValue.str "X") [] :=
  ⟨C7_resolveKey_descent.2.2.2.1 [("b", LValue.str "X")] "c" [] rfl,
   C7_resolveKey_descent.2.2.2.2.1 [("b", LValue.str "X")] "b" [] (LValue.str "X") rfl⟩

/-- C3: the mock path of the dispatcher: when a mock table is configured
and holds a key for the event (presence check, not truthiness), no real
transport call occurs; a non-function entry (including a literal null of
the response type) is the result verbatim; a function entry is invoked
synchronously with the call data; and an explicitly-`undefined` entry
fails fast with a descriptive configuration error. -/
theorem C3_mock_dispatch :
    ∀ (δ ρ : Type) (inj : Option String) (md : List (String × MockEntry δ ρ))
      (event : String) (data : δ),
      (lookupAssoc md event = some .undef →
        fetchNuiPlan inj (some md) event data
          = FetchPlan.mockErr ("[NUIX] Mock data for \"" ++ event ++ "\" is undefined")) ∧
      (∀ v : ρ, lookupAssoc md event = some (.val v) →
        fetchNuiPlan inj (some md) event data = FetchPlan.mockOk v) ∧
      (∀ f : δ → ρ, lookupAssoc md event = some (.fn f) →
        fetchNuiPlan inj (some md) event data = FetchPlan.mockOk (f data)) ∧
      (∀ e : MockEntry δ ρ, lookupAssoc md event = some e →
        ∀ (url : String) (d : δ),
          fetchNuiPlan inj (some md) event data ≠ FetchPlan.realFetch url d) := by
  intro δ ρ inj md event data
  refine ⟨?_, ?_, ?_, ?_⟩
  · intro h; simp [fetchNuiPlan, h]
  · intro v h; simp [fetchNuiPlan, h]
  · intro f h; simp [fetchNuiPlan, h]
  · intro e h url d
    cases e <;> simp [fetchNuiPlan, h]

theorem C3_mock_dispatch_witness :
    fetchNuiPlan none (some mockTableW) "e" (LValue.str "x") = FetchPlan.mockOk LValue.null
    ∧ fetchNuiPlan none (some mockTableW) "f" (LValue.str "x")
        = FetchPlan.mockOk (LValue.str "x")
    ∧ fetchNuiPlan none (some mockTableW) "g" (LValue.str "x")
        = FetchPlan.mockErr ("[NUIX] Mock data for \"" ++ "g" ++ "\" is undefined") :=
  ⟨(C3_mock_dispatch LValue LValue none mockTableW "e" (LValue.str "x")).2.1 LValue.null rfl,
   (C3_mock_dispatch LValue LValue none mockTableW "f" (LValue.str "x")).2.2.1 (fun d => d) rfl,
   (C3_mock_dispatch LValue LValue none mockTableW "g" (LValue.str "x")).1 rfl⟩

example :
    fetchNuiPlan none (some [("e", MockEntry.fn (fun d : ℕ => d * 2))]) "e" 5
      = FetchPlan.mockOk 10 := rfl

/-- C4: the real path: with a truthy timeout, a call that hangs or whose
response arrives no earlier than the timeout fails with the timeout
error naming the event and the configured value and signals the
transport to abort; a response in time with a non-ok status fails with
the HTTP error naming the event and the status; the two error kinds are
distinct constructors; and the timer is never left pending after the
dispatch settles, on any path. -/
theorem C4_real_path :
    ∀ (ρ : Type) (event : String) (t : ℕ),
      t ≠ 0 →
      (fetchNuiReal (ρ := ρ) event (some t) .hangs
          = (.timeoutError event t, ⟨true, true, true, false⟩)) ∧
      (∀ (status : ℕ) (body : ρ) (elapsed : ℕ), t ≤ elapsed →
        fetchNuiReal event (some t) (.responds status body elapsed)
          = (.timeoutError event t, ⟨true, true, true, false⟩)) ∧
      (∀ (status : ℕ) (body : ρ) (elapsed : ℕ), elapsed < t → responseOk status = false →
        fetchNuiReal event (some t) (.responds status body elapsed)
          = (.httpError event status, ⟨true, true, false, false⟩)) ∧
      (∀ (timeout : Option ℕ) (env : FetchOutcome ρ),
        (fetchNuiReal event timeout env).2.timerPendingAtEnd = false) ∧
      (∀ (e1 : String) (t1 : ℕ) (e2 : String) (s2 : ℕ),
        RealResult.timeoutError (ρ := ρ) e1 t1 ≠ RealResult.httpError e2 s2) ∧
      (realErrorMessage (RealResult.timeoutError (ρ := ρ) event t)
          = some ("[NUIX] fetchNui(\"" ++ event ++ "\") timed out after "
              ++ toString t ++ "ms")) ∧
      (∀ s : ℕ, realErrorMessage (RealResult.httpError (ρ := ρ) event s)
          = some ("[NUIX] fetchNui(\"" ++ event ++ "\") failed with HTTP "
              ++ toString s)) := by
  intro ρ event t ht
  have htr : timeoutTruthy (some t) = true := by simp [timeoutTruthy, ht]
  refine ⟨?_, ?_, ?_, ?_, ?_, rfl, fun _ => rfl⟩
  · simp [fetchNuiReal, htr]
  · intro status body elapsed hle
    simp [fetchNuiReal, htr, hle]
  · intro status body elapsed hlt hok
    have hnle : ¬ (t ≤ elapsed) := by omega
    simp [fetchNuiReal, htr, hnle, hok]
  · intro timeout env
    by_cases htt : timeoutTruthy timeout = true
    · cases env with
      | hangs => simp [fetchNuiReal, htt]
      | responds status body elapsed =>
          by_cases h2 : timeout.getD 0 ≤ elapsed
          · simp [fetchNuiReal, htt, h2]
          · by_cases h3 : responseOk status <;> simp [fetchNuiReal, htt, h2, h3]
      | networkError msg => simp [fetchNuiReal, htt]
    · have hff : timeoutTruthy timeout = false := by simpa using htt
      cases env with
      | hangs => simp [fetchNuiReal, hff]
      | responds status body elapsed =>
          by_cases h3 : responseOk status <;> simp [fetchNuiReal, hff, h3]
      | networkError msg => simp [fetchNuiReal, hff]
  · intro e1 t1 e2 s2
    simp

theorem C4_real_path_witness :
    fetchNuiReal (ρ := ℕ) "getPlayer" (some 50) .hangs
      = (.timeoutError "getPlayer" 50, ⟨true, true, true, false⟩)
    ∧ fetchNuiReal (ρ := ℕ) "getPlayer" (some 50) (.responds 500 7 10)
      = (.httpError "getPlayer" 500, ⟨true, true, false, false⟩) :=
  ⟨(C4_real_path ℕ "getPlayer" 50 (by decide)).1,
   (C4_real_path ℕ "getPlayer" 50 (by decide)).2.2.1 500 7 10 (by decide) (by decide)⟩

/-- C10: with `options.timeout` explicitly set to `0`, `options?.timeout`
is falsy, so no abort controller is constructed and no timer is
scheduled; the dispatch behaves exactly as if no timeout were configured
and can never fail with the timeout error. -/
theorem C10_zero_timeout :
    ∀ (ρ : Type) (event : String) (env : FetchOutcome ρ),
      timeoutTruthy (some 0) = false ∧
      fetchNuiReal event (some 0) env = fetchNuiReal event none env ∧
      (fetchNuiReal event (some 0) env).2.controllerCreated = false ∧
      (fetchNuiReal event (some 0) env).2.timerScheduled = false ∧
      (∀ (e : String) (t : ℕ), (fetchNuiReal event (some 0) env).1 ≠ .timeoutError e t) := by
  intro ρ event env
  have h0 : timeoutTruthy (some 0) = false := rfl
  have hn : timeoutTruthy none = false := rfl
  refine ⟨rfl, ?_, ?_, ?_, ?_⟩
  · cases env with
    | hangs => simp [fetchNuiReal, h0, hn]
    | responds status body elapsed =>
        by_cases h3 : responseOk status <;> simp [fetchNuiReal, h0, hn, h3]
    | networkError msg => simp [fetchNuiReal, h0, hn]
  · cases env with
    | hangs => simp [fetchNuiReal, h0]
    | responds status body elapsed =>
        by_cases h3 : responseOk status <;> simp [fetchNuiReal, h0, h3]
    | networkError msg => simp [fetchNuiReal, h0]
  · cases env with
    | hangs => simp [fetchNuiReal, h0]
    | responds status body elapsed =>
        by_cases h3 : responseOk status <;> simp [fetchNuiReal, h0, h3]
    | networkError msg => simp [fetchNuiReal, h0]
  · intro e t
    cases env with
    | hangs => simp [fetchNuiReal, h0]
    | responds status body elapsed =>
        by_cases h3 : responseOk status <;> simp [fetchNuiReal, h0, h3]
    | networkError msg => simp [fetchNuiReal, h0]

/-- C6: the formatter scans the template left to right for two-character
tokens: `%s` emits the next argument's string coercion with null/absent
becoming the empty string; `%d`/`%i` emit the argument coerced to a
number and floored toward negative infinity (NaN becoming 0); `%f` emits
the coerced number without flooring; `%%` emits a literal `%` without
consuming an argument; any other character after `%` passes through
literally and consumes no argument; the cursor starts at 0 and advances
by exactly one per consuming specifier. -/
theorem C6_luaFormat_scan :
    (∀ (template : String) (args : List FormatArg),
      luaFormat template args = luaFormatAux args 0 template.toList) ∧
    (∀ (args : List FormatArg) (i : ℕ), luaFormatAux args i [] = "") ∧
    (∀ (args : List FormatArg) (i : ℕ) (rest : List Char),
      luaFormatAux args i ('%' :: 's' :: rest)
        = jsToString (coalesceEmpty ((args[i]?).getD .undef))
            ++ luaFormatAux args (i + 1) rest) ∧
    (jsToString (coalesceEmpty .null) = "" ∧ jsToString (coalesceEmpty .undef) = "") ∧
    (∀ (args : List FormatArg) (i : ℕ) (rest : List Char) (c : Char), c = 'd' ∨ c = 'i' →
      luaFormatAux args i ('%' :: c :: rest)
        = toString (match jsToNumber ((args[i]?).getD .undef) with
            | .nan => (0 : ℤ)
            | .num d => jsFloor d) ++ luaFormatAux args (i + 1) rest) ∧
    (∀ d : JSDec, jsFloor d = ⌊(d.mant : ℚ) / (10 : ℚ) ^ d.exp10⌋) ∧
    (∀ (args : List FormatArg) (i : ℕ) (rest : List Char),
      luaFormatAux args i ('%' :: 'f' :: rest)
        = decToString (match jsToNumber ((args[i]?).getD .undef) with
            | .nan => ⟨0, 0⟩
            | .num d => d) ++ luaFormatAux args (i + 1) rest) ∧
    (∀ (args : List FormatArg) (i : ℕ) (rest : List Char),
      luaFormatAux args i ('%' :: '%' :: rest) = "%" ++ luaFormatAux args i rest) ∧
    (∀ (args : List FormatArg) (i : ℕ) (rest : List Char) (c : Char),
      c ∉ (['s', 'd', 'i', 'f', '%'] : List Char) →
      luaFormatAux args i ('%' :: c :: rest) = "%" ++ luaFormatAux args i (c :: rest)) ∧
    (∀ (args : List FormatArg) (i : ℕ) (rest : List Char) (c : Char), c ≠ '%' →
      luaFormatAux args i (c :: rest) = c.toString ++ luaFormatAux args i rest) ∧
    (∀ (args : List FormatArg) (i : ℕ), luaFormatAux args i ['%'] = "%") := by
  refine ⟨fun _ _ => rfl, fun _ _ => rfl, fun _ _ _ => rfl, ⟨rfl, rfl⟩, ?_, ?_,
    fun _ _ _ => rfl, fun _ _ _ => rfl, ?_, ?_, fun _ _ => rfl⟩
  · intro args i rest c hc
    rcases hc with h | h <;> subst h <;> rfl
  · intro d
    have h1 : ((10 : ℚ) ^ d.exp10) = ((10 ^ d.exp10 : ℕ) : ℚ) := by push_cast; ring
    rw [jsFloor, h1, Rat.floor_intCast_div_natCast, Int.fdiv_eq_ediv _ (by positivity)]
    norm_cast
  · intro args i rest c hc
    simp only [List.mem_cons, List.not_mem_nil, or_false, not_or] at hc
    obtain ⟨hs, hd, hi, hf, hp⟩ := hc
    simp [luaFormatAux, hs, hd, hi, hf, hp]
  · intro args i rest c hc
    rw [luaFormatAux.eq_def]
    simp [hc]

theorem C6_luaFormat_scan_witness :
    luaFormatAux ([] : List FormatArg) 0 ['%', 'x']
      = "%" ++ luaFormatAux ([] : List FormatArg) 0 ['x']
    ∧ luaFormatAux ([] : List FormatArg) 0 ['a']
      = Char.toString 'a' ++ luaFormatAux ([] : List FormatArg) 0 []
    ∧ luaFormatAux [FormatArg.num (JSNum.num ⟨39, 1⟩)] 0 ['%', 'd']
        = toString (match jsToNumber (([FormatArg.num (JSNum.num ⟨39, 1⟩)][0]?).getD .undef) with
            | .nan => (0 : ℤ)
            | .num d => jsFloor d) ++ luaFormatAux [FormatArg.num (JSNum.num ⟨39, 1⟩)] 1 [] :=
  ⟨C6_luaFormat_scan.2.2.2.2.2.2.2.2.1 [] 0 [] 'x' (by decide),
   C6_luaFormat_scan.2.2.2.2.2.2.2.2.2.1 [] 0 [] 'a' (by decide),
   C6_luaFormat_scan.2.2.2.2.1 [FormatArg.num (JSNum.num ⟨39, 1⟩)] 0 [] 'd' (Or.inl rfl)⟩

example : luaFormat "Safe: %s %d" [.undef, .num .nan] = "Safe:  0" := by decide

example : luaFormat "Accuracy: %f%%" [.num (.num ⟨995, 1⟩)] = "Accuracy: 99.5%" := by decide

theorem deliverTo_subId {δ : Type} (s : NuiSub) (m : RawMsg δ) (inv : Invocation δ)
    (h : deliverTo s m = some inv) : invSubId inv = s.id := by
  simp only [deliverTo] at h
  by_cases hstr : m.structured
  · simp only [hstr, Bool.not_true, Bool.false_eq_true, if_false] at h
    by_cases hact : m.action = ""
    · simp [hact] at h
    · simp only [hact, if_false] at h
      cases hk : s.kind with
      | filtered a =>
          rw [hk] at h
          by_cases hma : m.action = a
          · simp only [hma, if_true] at h
            obtain rfl := Option.some.inj h
            rfl
          · simp [hma] at h
      | catchAll =>
          rw [hk] at h
          obtain rfl := Option.some.inj h
          rfl
  · simp [hstr] at h

theorem dispatchMsg_filter_nil {δ : Type} (bus : List NuiSub) (m : RawMsg δ) (i : ℕ)
    (h : ∀ u ∈ bus, u.id = i → deliverTo u m = none) :
    (dispatchMsg bus m).filter (invFor i) = [] := by
  induction bus with
  | nil => rfl
  | cons u rest ih =>
      have ih' := ih (fun v hv hvi => h v (List.mem_cons_of_mem _ hv) hvi)
      cases hd : deliverTo u m with
      | none =>
          show ((u :: rest).filterMap (fun s => deliverTo s m)).filter (invFor i) = []
          rw [@List.filterMap_cons_none _ _ (fun s => deliverTo s m) u rest hd]
          exact ih'
      | some inv =>
          have hsub : invSubId inv = u.id := deliverTo_subId u m inv hd
          have hne : u.id ≠ i := by
            intro hEq
            have hnone := h u (List.mem_cons_self _ _) hEq
            rw [hnone] at hd
            cases hd
          have hff : invFor i inv = false := by
            simp [invFor, hsub, hne]
          show ((u :: rest).filterMap (fun s => deliverTo s m)).filter (invFor i) = []
          rw [@List.filterMap_cons_some _ _ (fun s => deliverTo s m) u rest inv hd]
          rw [List.filter_cons_of_neg (by simp [hff])]
          exact ih'

theorem dispatchMsg_filter_single {δ : Type} (bus : List NuiSub) (m : RawMsg δ)
    (i : ℕ) (a : String)
    (hmem : (⟨i, .filtered a⟩ : NuiSub) ∈ bus)
    (hnodup : (bus.map NuiSub.id).Nodup)
    (hstr : m.structured = true) (hact : m.action = a) (hne : a ≠ "") :
    (dispatchMsg bus m).filter (invFor i) = [.onAction i m.data] := by
  induction bus with
  | nil => cases hmem
  | cons u rest ih =>
      rw [List.map_cons] at hnodup
      have hcons := List.nodup_cons.mp hnodup
      have hnodup' : (rest.map NuiSub.id).Nodup := hcons.2
      have hhead : u.id ∉ rest.map NuiSub.id := hcons.1
      rcases List.mem_cons.mp hmem with heq | hmem'
      · subst heq
        have hdel : deliverTo (⟨i, .filtered a⟩ : NuiSub) m
            = some (.onAction i m.data) := by
          simp [deliverTo, hstr, hact, hne]
        show ((⟨i, .filtered a⟩ :: rest).filterMap
            (fun s => deliverTo (δ := δ) s m)).filter (invFor i) = [.onAction i m.data]
        rw [@List.filterMap_cons_some _ _ (fun s => deliverTo s m) _ rest _ hdel]
        rw [List.filter_cons_of_pos (by simp [invFor, invSubId])]
        have hrest : (dispatchMsg rest m).filter (invFor i) = [] := by
          apply dispatchMsg_filter_nil
          intro v hv hvi
          have hvm : v.id ∈ rest.map NuiSub.id := List.mem_map.mpr ⟨v, hv, rfl⟩
          rw [hvi] at hvm
          exact absurd hvm hhead
        show _ :: (dispatchMsg rest m).filter (invFor i) = _
        rw [hrest]
      · have hune : u.id ≠ i := by
          intro hEq
          apply hhead
          rw [hEq]
          exact List.mem_map.mpr ⟨_, hmem', rfl⟩
        have ih' := ih hmem' hnodup'
        cases hd : deliverTo u m with
        | none =>
            show ((u :: rest).filterMap (fun s => deliverTo s m)).filter (invFor i) = _
            rw [@List.filterMap_cons_none _ _ (fun s => deliverTo s m) u rest hd]
            exact ih'
        | some inv =>
            have hsub : invSubId inv = u.id := deliverTo_subId u m inv hd
            have hff : invFor i inv = false := by simp [invFor, hsub, hune]
            show ((u :: rest).filterMap (fun s => deliverTo s m)).filter (invFor i) = _
            rw [@List.filterMap_cons_some _ _ (fun s => deliverTo s m) u rest inv hd]
            rw [List.filter_cons_of_neg (by simp [hff])]
            exact ih'

theorem deliverTo_filtered_none_of_ne {δ : Type} (i : ℕ) (a : String) (m : RawMsg δ)
    (hma : m.action ≠ a) :
    deliverTo (⟨i, .filtered a⟩ : NuiSub) m = none := by
  by_cases hstr : m.structured
  · by_cases hact : m.action = ""
    · simp [deliverTo, hstr, hact]
    · simp [deliverTo, hstr, hact, hma]
  · have : m.structured = false := by simpa using hstr
    simp [deliverTo, this]

theorem dispatchMsg_filter_nonmatching {δ : Type} (bus : List NuiSub) (m : RawMsg δ)
    (i : ℕ) (a : String)
    (hmem : (⟨i, .filtered a⟩ : NuiSub) ∈ bus)
    (hnodup : (bus.map NuiSub.id).Nodup)
    (hma : m.action ≠ a) :
    (dispatchMsg bus m).filter (invFor i) = [] := by
  apply dispatchMsg_filter_nil
  intro u hu hui
  have huq : u = (⟨i, .filtered a⟩ : NuiSub) :=
    List.inj_on_of_nodup_map hnodup hu hmem (by simpa using hui)
  subst huq
  exact deliverTo_filtered_none_of_ne i a m hma

theorem runBus_unsubscribed {δ : Type} (bus : List NuiSub) (i : ℕ)
    (msgs : List (RawMsg δ)) :
    (runBus (unsubscribe bus i) msgs).filter (invFor i) = [] := by
  induction msgs with
  | nil => rfl
  | cons m rest ih =>
      show ((dispatchMsg (unsubscribe bus i) m) ++ runBus (unsubscribe bus i) rest).filter
          (invFor i) = []
      rw [List.filter_append]
      have h1 : (dispatchMsg (unsubscribe bus i) m).filter (invFor i) = [] := by
        apply dispatchMsg_filter_nil
        intro u hu hui
        have := (List.mem_filter.mp hu).2
        simp [hui] at this
      rw [h1, ih]
      rfl

/-- C9: the listener: an inbound notification that is not a structured
object, or lacks a non-empty action, is silently ignored (no handler
invocation on any subscription); a filtered subscription with unique
registration ids is invoked with the notification's data exactly once
per matching notification and never for a non-matching action; and after
its cancellation handle removes it from the channel, no subsequent
notification produces any invocation for it. -/
theorem C9_listener_filtering :
    (∀ (δ : Type) (bus : List NuiSub) (m : RawMsg δ),
      m.structured = false → dispatchMsg bus m = []) ∧
    (∀ (δ : Type) (bus : List NuiSub) (m : RawMsg δ),
      m.action = "" → dispatchMsg bus m = []) ∧
    (∀ (δ : Type) (bus : List NuiSub) (m : RawMsg δ) (i : ℕ) (a : String),
      (⟨i, .filtered a⟩ : NuiSub) ∈ bus → (bus.map NuiSub.id).Nodup →
      m.structured = true → m.action = a → a ≠ "" →
      (dispatchMsg bus m).filter (invFor i) = [.onAction i m.data]) ∧
    (∀ (δ : Type) (bus : List NuiSub) (m : RawMsg δ) (i : ℕ) (a : String),
      (⟨i, .filtered a⟩ : NuiSub) ∈ bus → (bus.map NuiSub.id).Nodup →
      m.action ≠ a →
      (dispatchMsg bus m).filter (invFor i) = []) ∧
    (∀ (δ : Type) (bus : List NuiSub) (i : ℕ) (msgs : List (RawMsg δ)),
      (runBus (unsubscribe bus i) msgs).filter (invFor i) = []) := by
  refine ⟨?_, ?_, ?_, ?_, ?_⟩
  · intro δ bus m hstr
    apply List.filterMap_eq_nil_iff.mpr
    intro s _
    simp [deliverTo, hstr]
  · intro δ bus m hact
    apply List.filterMap_eq_nil_iff.mpr
    intro s _
    by_cases hstr : m.structured
    · simp [deliverTo, hstr, hact]
    · have : m.structured = false := by simpa using hstr
      simp [deliverTo, this]
  · intro δ bus m i a hmem hnodup hstr hact hne
    exact dispatchMsg_filter_single bus m i a hmem hnodup hstr hact hne
  · intro δ bus m i a hmem hnodup hma
    exact dispatchMsg_filter_nonmatching bus m i a hmem hnodup hma
  · intro δ bus i msgs
    exact runBus_unsubscribed bus i msgs

theorem C9_listener_filtering_witness :
    (dispatchMsg busW msgShow).filter (invFor 0) = [Invocation.onAction 0 5]
    ∧ (dispatchMsg busW msgShow).filter (invFor 1) = []
    ∧ dispatchMsg busW (⟨false, "showMenu", (5 : ℕ)⟩ : RawMsg ℕ) = []
    ∧ (runBus (unsubscribe busW 0) [msgShow]).filter (invFor 0) = [] :=
  ⟨C9_listener_filtering.2.2.1 ℕ busW msgShow 0 "showMenu"
      (by decide) (by decide) rfl rfl (by decide),
   C9_listener_filtering.2.2.2.1 ℕ busW msgShow 1 "hideMenu"
      (by decide) (by decide) (by decide),
   C9_listener_filtering.1 ℕ busW ⟨false, "showMenu", 5⟩ rfl,
   C9_listener_filtering.2.2.2.2 ℕ busW 0 [msgShow]⟩

/-- C8: `mergeLocales` never mutates its inputs: in the heap model every
address that existed before the call maps to exactly the same object
afterwards (so every input record is equal, value for value, at every
nesting level), every object the call writes lives at a fresh address
(freshly constructed at every merged level), and the result object is
itself freshly allocated. -/
theorem C8_mergeLocales_no_mutation :
    ∀ (fuel : ℕ) (σ : Heap) (records : List ℕ) (σ' : Heap) (r : ℕ),
      mergeLocalesH fuel σ records = some (σ', r) →
      (∀ a, a < σ.next → hget σ'.objs a = hget σ.objs a) ∧
      σ.next ≤ r ∧
      (∀ a, hget σ'.objs a ≠ hget σ.objs a → σ.next ≤ a) := by
  intro fuel σ records σ' r h
  obtain ⟨hle, hr, hpres⟩ := (mergeH_frame fuel).1 σ records σ' r h
  refine ⟨hpres, le_of_eq hr.symm, ?_⟩
  intro a hne
  by_contra hlt
  push_neg at hlt
  exact hne (hpres a hlt)

theorem C8_mergeLocales_no_mutation_witness :
    mergeLocalesH 10 heapW [1, 3] = some (heapW', 4)
    ∧ hget heapW'.objs 0 = hget heapW.objs 0
    ∧ hget heapW'.objs 1 = hget heapW.objs 1
    ∧ hget heapW'.objs 2 = hget heapW.objs 2
    ∧ hget heapW'.objs 3 = hget heapW.objs 3
    ∧ heapW.next ≤ 4 :=
  have hrun : mergeLocalesH 10 heapW [1, 3] = some (heapW', 4) := by decide
  have hfr := C8_mergeLocales_no_mutation 10 heapW [1, 3] heapW' 4 hrun
  ⟨hrun, hfr.1 0 (by decide), hfr.1 1 (by decide), hfr.1 2 (by decide),
    hfr.1 3 (by decide), hfr.2.1⟩
